import Mathlib

/-
Verification of the indicator / signal / backtest core of
`streamlit_app.py` (爆发增强策略 backtest).

The core is embedded shallowly over ℚ (the source works on IEEE doubles via
pandas; rational arithmetic models the exact real-number semantics, and the
few places where IEEE NaN / division-by-zero behaviour is observable are
modelled explicitly with `Option ℚ` — `none` plays the role of NaN, and every
pandas comparison against NaN yields `False`).

Source mapping (line numbers refer to src/streamlit_app.py):
  * `Bar`              — one row of the dataframe after fetch/merge (date,
                         close, high, low, pct_chg, idx_c).
  * `ma7`, `idxMa5`    — lines 154, 156: `rolling(7).mean()`, `rolling(5).mean()`
                         (pandas default `min_periods = window`, so the first
                         `w-1` entries are NaN = `none`).
  * `q2`               — lines 159-162: doubly EMA-smoothed momentum with
                         span 6 (α = 2/7, `adjust=False`), denominator
                         `replace(0, nan)`.  `diff()` makes index 0 NaN, and
                         an `ewm(adjust=False)` seeds at the first valid value.
  * `xg` / `cond1..7`  — lines 165-172, including the final `fillna(False)`.
  * `SimState`, `stepExit`, `stepEntry`, `stepBar`, `runSteps`, `backtest`
                       — lines 174-214, the bar-by-bar trading loop.
-/

set_option maxRecDepth 100000

attribute [local semireducible] Rat.mul Rat.add Rat.sub Rat.inv

/-- One row of the merged dataframe (src/streamlit_app.py lines 109-128).
Dates are modelled as naturals; all price fields are rationals. -/
structure Bar where
  date : ℕ
  close : ℚ
  high : ℚ
  low : ℚ
  pct_chg : ℚ
  idx_c : ℚ
deriving DecidableEq, Repr

/-- Smoothing factor of `ewm(span=6)`: α = 2/(6+1). -/
def emaAlpha : ℚ := 2 / 7

/-- One step of the recursive (adjust=False) exponential moving average. -/
def emaStep (prev x : ℚ) : ℚ := (1 - emaAlpha) * prev + emaAlpha * x

def emaAux : ℚ → List ℚ → List ℚ
  | _, [] => []
  | prev, x :: xs => emaStep prev x :: emaAux (emaStep prev x) xs

/-- `ewm(span=6, adjust=False).mean()` on a series whose values are all
valid: seeded at the first element. -/
def ema : List ℚ → List ℚ
  | [] => []
  | x :: xs => x :: emaAux x xs

/-- `df['close'].diff()` dropping the leading NaN: element `k` is
`close[k+1] - close[k]`. -/
def diffs (bars : List Bar) : List ℚ :=
  List.zipWith (fun p b => b.close - p.close) bars bars.tail

/-- Numerator series of `q2` (line 160), `q_ema`, aligned so that list index
`k` is pandas index `k+1` (pandas index 0 is NaN). -/
def s2list (bars : List Bar) : List ℚ := ema (ema (diffs bars))

/-- Denominator series of `q2` (line 161), `q_abs_ema`, same alignment. -/
def a2list (bars : List Bar) : List ℚ := ema (ema ((diffs bars).map (fun d => abs d)))

/-- `q_ema` at pandas index `i` (`none` = NaN at `i = 0` or out of range). -/
def s2at (bars : List Bar) : ℕ → Option ℚ
  | 0 => none
  | k + 1 => (s2list bars)[k]?

/-- `q_abs_ema` at pandas index `i`. -/
def a2at (bars : List Bar) : ℕ → Option ℚ
  | 0 => none
  | k + 1 => (a2list bars)[k]?

/-- Line 162: `df['q2'] = 100 * q_ema / q_abs_ema.replace(0, np.nan)`.
A zero denominator is replaced by NaN, so the quotient is NaN there. -/
def q2 (bars : List Bar) (i : ℕ) : Option ℚ :=
  match s2at bars i, a2at bars i with
  | some s, some a => if a = 0 then none else some (100 * s / a)
  | _, _ => none

/-- Trailing window of width `w` ending at index `i` (inclusive). -/
def window (xs : List ℚ) (w i : ℕ) : List ℚ := (xs.drop (i + 1 - w)).take w

/-- `rolling(w).mean()` at index `i`; NaN (`none`) until `w` observations
exist (pandas default `min_periods = window`). -/
def rollMean (xs : List ℚ) (w i : ℕ) : Option ℚ :=
  if w ≤ i + 1 ∧ i < xs.length then some ((window xs w i).sum / (w : ℚ)) else none

/-- `rolling(w).max()` at index `i`. -/
def rollMax (xs : List ℚ) (w i : ℕ) : Option ℚ :=
  if w ≤ i + 1 ∧ i < xs.length then (window xs w i).max? else none

def closes (bars : List Bar) : List ℚ := bars.map Bar.close

/-- Line 154: `df['ma7'] = df['close'].rolling(7).mean()`. -/
def ma7 (bars : List Bar) (i : ℕ) : Option ℚ := rollMean (closes bars) 7 i

/-- Line 156: `df['idx_ma5'] = df['idx_c'].rolling(5).mean()`. -/
def idxMa5 (bars : List Bar) (i : ℕ) : Option ℚ := rollMean (bars.map Bar.idx_c) 5 i

/-- Line 167 window: `df['pct_chg'].rolling(30).max()`. -/
def roll30 (bars : List Bar) (i : ℕ) : Option ℚ := rollMax (bars.map Bar.pct_chg) 30 i

/-- Line 166: `df['idx_c'] > df['idx_ma5']` (False when either side is NaN). -/
def cond1 (bars : List Bar) (i : ℕ) : Bool :=
  match bars[i]?, idxMa5 bars i with
  | some b, some m => decide (m < b.idx_c)
  | _, _ => false

/-- Line 167: `df['pct_chg'].rolling(30).max() > 9.5`. -/
def cond2 (bars : List Bar) (i : ℕ) : Bool :=
  match roll30 bars i with
  | some m => decide ((19 : ℚ) / 2 < m)
  | none => false

/-- Line 168 (left): `df['q2'] > df['q2'].shift(1)`. -/
def cond3 (bars : List Bar) (i : ℕ) : Bool :=
  match q2 bars i, q2 bars (i - 1) with
  | some a, some b => decide (b < a)
  | _, _ => false

/-- Line 168 (right): `df['q2'] > -20`. -/
def cond4 (bars : List Bar) (i : ℕ) : Bool :=
  match q2 bars i with
  | some a => decide (-20 < a)
  | none => false

/-- Line 169: `df['ma7'] > df['ma7'].shift(1)`. -/
def cond5 (bars : List Bar) (i : ℕ) : Bool :=
  match ma7 bars i, ma7 bars (i - 1) with
  | some a, some b => decide (b < a)
  | _, _ => false

/-- Line 170: `df['close'] > df['high'].shift(1)` (shift makes index 0 NaN). -/
def cond6 (bars : List Bar) (i : ℕ) : Bool :=
  if i = 0 then false
  else
    match bars[i]?, bars[i - 1]? with
    | some b, some p => decide (p.high < b.close)
    | _, _ => false

/-- Line 171: `(df['close'] - df['ma7'])/df['ma7']*100 <= 3`.  When
`ma7 = 0` the IEEE quotient is `+inf` (close > 0), NaN (close = 0) or
`-inf` (close < 0); only `-inf <= 3` holds, so the comparison is true
exactly when `close < 0`. -/
def cond7 (bars : List Bar) (i : ℕ) : Bool :=
  match bars[i]?, ma7 bars i with
  | some b, some m =>
      if m = 0 then decide (b.close < 0)
      else decide ((b.close - m) / m * 100 ≤ 3)
  | _, _ => false

/-- Lines 165-172: the entry signal `xg`, conjunction of the seven
conditions; `fillna(False)` is implicit since every NaN comparison above
already yields `false`. -/
def xg (bars : List Bar) (i : ℕ) : Bool :=
  cond1 bars i && cond2 bars i && cond3 bars i && cond4 bars i &&
  cond5 bars i && cond6 bars i && cond7 bars i

/-- The loop state of lines 175-180: `cash`, `shares`, `stop_low`,
`b_date`, `b_price` (`b_date` is `None` in the source until the first entry;
it is modelled as 0, and is never read before an entry sets it). -/
structure SimState where
  cash : ℚ
  shares : ℚ
  stop_low : ℚ
  b_date : ℕ
  b_price : ℚ
deriving DecidableEq, Repr

/-- One element of `trade_logs` (lines 193-199).  The source stores the
prices and the return formatted to two decimals for display; the record here
keeps the exact numeric values that are formatted. -/
structure TradeR where
  buy_date : ℕ
  sell_date : ℕ
  buy_price : ℚ
  sell_price : ℚ
  return_rate : ℚ
deriving DecidableEq, Repr

/-- `row['close'] < row['ma7']` as evaluated by pandas: false when `ma7`
is NaN. -/
def ltOpt (c : ℚ) (m : Option ℚ) : Bool :=
  match m with
  | some v => decide (c < v)
  | none => false

/-- Lines 186-200, the stop-loss branch: while holding shares, liquidate at
the bar close when it is strictly below the stop or strictly below `ma7`,
appending one trade record. -/
def stepExit (s : SimState) (b : Bar) (m : Option ℚ) : SimState × Option TradeR :=
  if 0 < s.shares then
    if b.close < s.stop_low ∨ ltOpt b.close m = true then
      ({ s with cash := s.shares * b.close, shares := 0 },
       some { buy_date := s.b_date, sell_date := b.date, buy_price := s.b_price,
              sell_price := b.close,
              return_rate := (b.close - s.b_price) / s.b_price * 100 })
    else (s, none)
  else (s, none)

/-- Lines 203-208, the entry branch: when the signal is on and no shares are
held, invest all cash at the bar close and set the stop to the bar low. -/
def stepEntry (s : SimState) (b : Bar) (xgv : Bool) : SimState :=
  if xgv = true ∧ s.shares = 0 then
    { cash := 0, shares := s.cash / b.close, stop_low := b.low,
      b_date := b.date, b_price := b.close }
  else s

/-- One iteration of the loop body (lines 182-212): exit check, then entry
check, then the recorded equity `cash + shares * close`. -/
def stepBar (s : SimState) (b : Bar) (m : Option ℚ) (xgv : Bool) :
    SimState × Option TradeR × ℚ :=
  let e := stepExit s b m
  let s2 := stepEntry e.1 b xgv
  (s2, e.2, s2.cash + s2.shares * b.close)

/-- State before the loop (lines 175-180). -/
def initState (c : ℚ) : SimState :=
  { cash := c, shares := 0, stop_low := 0, b_date := 0, b_price := 0 }

/-- `for i in range(len(df))` with `n` iterations left and current index `i`;
returns the final state, `trade_logs` and `history`.  (The `none` branch is
unreachable when the fuel matches the series length.) -/
def runSteps (bars : List Bar) : ℕ → SimState → ℕ → SimState × List TradeR × List ℚ
  | 0, s, _ => (s, [], [])
  | n + 1, s, i =>
    match bars[i]? with
    | none => (s, [], [])
    | some b =>
      let st := stepBar s b (ma7 bars i) (xg bars i)
      let rest := runSteps bars n st.1 (i + 1)
      (rest.1,
       (match st.2.1 with
        | some t => t :: rest.2.1
        | none => rest.2.1),
       st.2.2 :: rest.2.2)

/-- The whole loop of lines 174-214: final state, trade log and equity curve
(`history` / `df['balance']`). -/
def backtest (bars : List Bar) (c : ℚ) : SimState × List TradeR × List ℚ :=
  runSteps bars bars.length (initState c) 0

/-- Loop state just before processing bar `n` (equivalently, after bars
`0..n-1`). -/
def stateAt (bars : List Bar) (c : ℚ) : ℕ → SimState
  | 0 => initState c
  | n + 1 =>
    match bars[n]? with
    | some b => (stepBar (stateAt bars c n) b (ma7 bars n) (xg bars n)).1
    | none => stateAt bars c n

/-- The trade record (if any) emitted while processing bar `n`. -/
def tradeAt (bars : List Bar) (c : ℚ) (n : ℕ) : Option TradeR :=
  match bars[n]? with
  | some b => (stepBar (stateAt bars c n) b (ma7 bars n) (xg bars n)).2.1
  | none => none

/-- Close of bar `j` (0 out of range; used only at in-range indices). -/
def closeAt (bars : List Bar) (j : ℕ) : ℚ :=
  ((bars[j]?).map Bar.close).getD 0

/-- Conservation shape of the loop state: Flat (no shares, positive cash) or
Long (no cash, positive shares). -/
def Conserved (s : SimState) : Prop :=
  (s.shares = 0 ∧ 0 < s.cash) ∨ (s.cash = 0 ∧ 0 < s.shares)

/-- Strictly increasing dates, as a decidable boolean. -/
def strictDatesB : List Bar → Bool
  | [] => true
  | [_] => true
  | a :: b :: r => decide (a.date < b.date) && strictDatesB (b :: r)

/-- The only validation the source performs before running a backtest
(lines 142-145): the stock code has six characters and the query start date
is before the end date.  The bar series itself is not examined. -/
def inputChecksPass (codeLen : ℕ) (startD endD : ℕ) : Bool :=
  decide (codeLen = 6) && decide (startD < endD)

/-- Concrete two-bar series used as a witness input. -/
def wbars : List Bar :=
  [{ date := 0, close := 5, high := 6, low := 4, pct_chg := 0, idx_c := 1 },
   { date := 1, close := 5, high := 6, low := 4, pct_chg := 0, idx_c := 1 }]

/-- Concrete two-bar series with duplicate dates (non-monotonic input). -/
def dupBars : List Bar :=
  [{ date := 5, close := 5, high := 6, low := 4, pct_chg := 0, idx_c := 1 },
   { date := 5, close := 5, high := 6, low := 4, pct_chg := 0, idx_c := 1 }]

/-- Concrete 31-bar series that fires the entry signal exactly at bar 29
(close breaks above the previous high with one +10% day in the trailing
window and a rising `ma7`) and stops out at bar 30. -/
def tbars : List Bar :=
  (List.range 31).map (fun i =>
    let c : ℚ := if i = 0 then 100 else if i = 29 then 101 else if i = 30 then 90 else 99
    { date := i, close := c, high := c + 1, low := c - 1,
      pct_chg := if i = 10 then 10 else 0, idx_c := (i : ℚ) })

/-- The single trade produced by running the backtest on `tbars`. -/
def ttrade : TradeR :=
  { buy_date := 29, sell_date := 30, buy_price := 101, sell_price := 90,
    return_rate := -1100 / 101 }

/-- Concrete 30-bar series whose price moves are scaled down to size
`10⁻¹⁰`, so the doubly-smoothed absolute-change denominator `a2` is
near zero (≈ 1.6·10⁻¹¹) at bar 29 while the entry signal still fires
there (`q2` is scale-invariant). -/
def nzbars : List Bar :=
  (List.range 30).map (fun i =>
    let d : ℚ := 1 / 10000000000
    let c : ℚ := if i = 0 then 100 else if i = 29 then 100 + d else 100 - d
    { date := i, close := c, high := c + d / 2, low := c - d,
      pct_chg := if i = 10 then 10 else 0, idx_c := (i : ℚ) })

/-- Concrete 32-bar series whose position lives for two bars: entry at
bar 29 (close 101, low 100), held through bar 30 (close 102, above both the
stop 100 and `ma7`), stopped out at bar 31 (close 90). -/
def fbars : List Bar :=
  (List.range 32).map (fun i =>
    let c : ℚ := if i = 0 then 100 else if i = 29 then 101
                 else if i = 30 then 102 else if i = 31 then 90 else 99
    { date := i, close := c, high := c + 1, low := c - 1,
      pct_chg := if i = 10 then 10 else 0, idx_c := (i : ℚ) })

/-! ### Helper lemmas -/

theorem xg_false_of_cond1 {bars : List Bar} {i : ℕ} (h : cond1 bars i = false) :
    xg bars i = false := by
  simp [xg, h]

theorem xg_false_of_cond2 {bars : List Bar} {i : ℕ} (h : cond2 bars i = false) :
    xg bars i = false := by
  simp [xg, h]

theorem xg_false_of_cond3 {bars : List Bar} {i : ℕ} (h : cond3 bars i = false) :
    xg bars i = false := by
  simp [xg, h]

theorem xg_false_of_cond5 {bars : List Bar} {i : ℕ} (h : cond5 bars i = false) :
    xg bars i = false := by
  simp [xg, h]

theorem xg_false_of_cond7 {bars : List Bar} {i : ℕ} (h : cond7 bars i = false) :
    xg bars i = false := by
  simp [xg, h]

theorem q2_none_of_a2_zero {bars : List Bar} {i : ℕ} (h : a2at bars i = some 0) :
    q2 bars i = none := by
  unfold q2
  rw [h]
  cases s2at bars i <;> simp

/-! ### Claims -/

/-- C6.  Undefined-input safety of the signal: an undefined (NaN) `ma7`,
`idx_ma5`, rolling max or `q2` at bar `i` forces `xg i = false`; a zero
doubly-smoothed denominator `a2` forces `xg i = false` (the source replaces
it by NaN); and a zero `ma7` in the extension condition forces
`xg i = false` whenever the bar close is nonnegative (the IEEE quotient is
then `+inf` or NaN, and the comparison with 3 is false). -/
theorem signal_undef_resolves_false (bars : List Bar) (i : ℕ) :
    ((ma7 bars i = none ∨ idxMa5 bars i = none ∨ roll30 bars i = none ∨
        q2 bars i = none) → xg bars i = false) ∧
    (a2at bars i = some 0 → xg bars i = false) ∧
    (∀ b, bars[i]? = some b → 0 ≤ b.close → ma7 bars i = some 0 →
      xg bars i = false) := by
  refine ⟨?_, ?_, ?_⟩
  · rintro (h | h | h | h)
    · exact xg_false_of_cond5 (by simp [cond5, h])
    · exact xg_false_of_cond1 (by cases hb : bars[i]? <;> simp [cond1, h, hb])
    · exact xg_false_of_cond2 (by simp [cond2, h])
    · exact xg_false_of_cond3 (by simp [cond3, h])
  · intro h
    exact xg_false_of_cond3 (by simp [cond3, q2_none_of_a2_zero h])
  · intro b hb hc hm
    refine xg_false_of_cond7 ?_
    simp only [cond7, hb, hm, if_pos rfl]
    exact decide_eq_false (not_lt.mpr hc)

/-- Witness for C6 at a concrete input: a two-bar series, where every
indicator is still inside its warm-up window at bar 0. -/
theorem signal_undef_resolves_false_witness :
    (ma7 [{ date := 0, close := 5, high := 6, low := 4, pct_chg := 0, idx_c := 1 },
          { date := 1, close := 5, high := 6, low := 4, pct_chg := 0, idx_c := 1 }] 0 = none ∨
     idxMa5 [{ date := 0, close := 5, high := 6, low := 4, pct_chg := 0, idx_c := 1 },
             { date := 1, close := 5, high := 6, low := 4, pct_chg := 0, idx_c := 1 }] 0 = none ∨
     roll30 [{ date := 0, close := 5, high := 6, low := 4, pct_chg := 0, idx_c := 1 },
             { date := 1, close := 5, high := 6, low := 4, pct_chg := 0, idx_c := 1 }] 0 = none ∨
     q2 [{ date := 0, close := 5, high := 6, low := 4, pct_chg := 0, idx_c := 1 },
         { date := 1, close := 5, high := 6, low := 4, pct_chg := 0, idx_c := 1 }] 0 = none) ∧
    xg [{ date := 0, close := 5, high := 6, low := 4, pct_chg := 0, idx_c := 1 },
        { date := 1, close := 5, high := 6, low := 4, pct_chg := 0, idx_c := 1 }] 0 = false :=
  ⟨by decide,
   (signal_undef_resolves_false
     [{ date := 0, close := 5, high := 6, low := 4, pct_chg := 0, idx_c := 1 },
      { date := 1, close := 5, high := 6, low := 4, pct_chg := 0, idx_c := 1 }] 0).1 (by decide)⟩

/-- C3.  Exit rule: while Long (`shares > 0`), a bar whose close is strictly
below the stop or strictly below `ma7` liquidates at the close — cash becomes
`shares * close`, shares become 0 (Flat), and exactly the one trade record
built from the stored entry date/price and this bar's date/close (with the
return formula) is emitted; otherwise the whole bar leaves the state
unchanged and emits no record. -/
theorem exit_rule_liquidation (s : SimState) (b : Bar) (m : Option ℚ) (xgv : Bool)
    (hl : 0 < s.shares) :
    ((b.close < s.stop_low ∨ ltOpt b.close m = true) →
      stepExit s b m =
        ({ s with cash := s.shares * b.close, shares := 0 },
         some { buy_date := s.b_date, sell_date := b.date, buy_price := s.b_price,
                sell_price := b.close,
                return_rate := (b.close - s.b_price) / s.b_price * 100 }) ∧
      (stepBar s b m xgv).2.1 =
        some { buy_date := s.b_date, sell_date := b.date, buy_price := s.b_price,
               sell_price := b.close,
               return_rate := (b.close - s.b_price) / s.b_price * 100 }) ∧
    (¬(b.close < s.stop_low ∨ ltOpt b.close m = true) →
      stepBar s b m xgv = (s, none, s.cash + s.shares * b.close)) := by
  constructor
  · intro h
    constructor
    · simp [stepExit, hl, h]
    · simp [stepBar, stepExit, hl, h]
  · intro h
    have hne : s.shares ≠ 0 := ne_of_gt hl
    simp [stepBar, stepExit, stepEntry, hl, h, hne]

/-- Witness for C3: a concrete Long state stopped out at close 4 < stop 5. -/
theorem exit_rule_liquidation_witness :
    (0 : ℚ) < (⟨0, 10, 5, 2, 7⟩ : SimState).shares ∧
    stepExit ⟨0, 10, 5, 2, 7⟩ ⟨9, 4, 5, 3, 0, 0⟩ (some 6) =
      ({ cash := 40, shares := 0, stop_low := 5, b_date := 2, b_price := 7 },
       some { buy_date := 2, sell_date := 9, buy_price := 7, sell_price := 4,
              return_rate := (4 - 7) / 7 * 100 }) :=
  ⟨by decide,
   (((exit_rule_liquidation ⟨0, 10, 5, 2, 7⟩ ⟨9, 4, 5, 3, 0, 0⟩ (some 6) false
      (by decide)).1 (by decide)).1)⟩

/-- C5.  Same-bar exit-then-re-entry: while Long, on a bar where the exit
condition fires and the signal is true, the position is closed at the close
(one record emitted from the stored entry data) and a new position is opened
at the very same close, investing all the freshly realized cash
(`shares = (old_shares * close) / close`, `cash = 0`), with the new entry
date and price taken from this bar and the new stop set to this bar's low. -/
theorem same_bar_exit_reentry (s : SimState) (b : Bar) (m : Option ℚ)
    (hl : 0 < s.shares) (hx : b.close < s.stop_low ∨ ltOpt b.close m = true) :
    stepBar s b m true =
      ({ cash := 0, shares := s.shares * b.close / b.close, stop_low := b.low,
         b_date := b.date, b_price := b.close },
       some { buy_date := s.b_date, sell_date := b.date, buy_price := s.b_price,
              sell_price := b.close,
              return_rate := (b.close - s.b_price) / s.b_price * 100 },
       0 + s.shares * b.close / b.close * b.close) := by
  simp [stepBar, stepExit, stepEntry, hl, hx]

/-- Witness for C5: Long at entry price 7 with stop 5; close 4 stops out and
the signal immediately re-enters at 4 with stop from the bar's low 3. -/
theorem same_bar_exit_reentry_witness :
    (0 : ℚ) < (⟨0, 10, 5, 2, 7⟩ : SimState).shares ∧
    ((4 : ℚ) < (⟨0, 10, 5, 2, 7⟩ : SimState).stop_low ∨ ltOpt 4 (some 6) = true) ∧
    stepBar ⟨0, 10, 5, 2, 7⟩ ⟨9, 4, 5, 3, 0, 0⟩ (some 6) true =
      ({ cash := 0, shares := 10 * 4 / 4, stop_low := 3, b_date := 9, b_price := 4 },
       some { buy_date := 2, sell_date := 9, buy_price := 7, sell_price := 4,
              return_rate := (4 - 7) / 7 * 100 },
       0 + 10 * 4 / 4 * 4) :=
  ⟨by decide, by decide,
   same_bar_exit_reentry ⟨0, 10, 5, 2, 7⟩ ⟨9, 4, 5, 3, 0, 0⟩ (some 6)
     (by decide) (by decide)⟩

/-- C10.  Exit comparisons are strict: while Long, a bar whose close is not
strictly below the stop and not strictly below `ma7` — in particular a close
exactly equal to the stop price or exactly equal to `ma7` — triggers no
liquidation: the whole bar leaves the state unchanged and emits no record. -/
theorem strict_exit_comparison (s : SimState) (b : Bar) (m : Option ℚ) (xgv : Bool)
    (hl : 0 < s.shares) (h1 : s.stop_low ≤ b.close)
    (h2 : ∀ v, m = some v → v ≤ b.close) :
    stepBar s b m xgv = (s, none, s.cash + s.shares * b.close) := by
  have hma : ltOpt b.close m = false := by
    cases m with
    | none => rfl
    | some v => exact decide_eq_false (not_lt.mpr (h2 v rfl))
  have hc : ¬(b.close < s.stop_low ∨ ltOpt b.close m = true) := by
    rintro (h | h)
    · exact absurd h (not_lt.mpr h1)
    · rw [hma] at h
      exact Bool.false_ne_true h
  have hne : s.shares ≠ 0 := ne_of_gt hl
  simp [stepBar, stepExit, stepEntry, hl, hc, hne]

/-- Witness for C10: close exactly equal to both the stop price and `ma7`
does not liquidate. -/
theorem strict_exit_comparison_witness :
    (0 : ℚ) < (⟨0, 10, 5, 2, 7⟩ : SimState).shares ∧
    (⟨0, 10, 5, 2, 7⟩ : SimState).stop_low ≤ (5 : ℚ) ∧
    stepBar ⟨0, 10, 5, 2, 7⟩ ⟨9, 5, 6, 3, 0, 0⟩ (some 5) true =
      (⟨0, 10, 5, 2, 7⟩, none, 0 + 10 * 5) :=
  ⟨by decide, by decide,
   strict_exit_comparison ⟨0, 10, 5, 2, 7⟩ ⟨9, 5, 6, 3, 0, 0⟩ (some 5) true
     (by decide) (by decide) (by rintro v hv; cases hv; decide)⟩

theorem short_series_roll30_none (bars : List Bar) (i : ℕ) (h : bars.length < 30) :
    roll30 bars i = none := by
  unfold roll30 rollMax
  rw [if_neg]
  rintro ⟨h1, h2⟩
  rw [List.length_map] at h2
  omega

theorem inert_run (bars : List Bar) (hall : ∀ j, j < bars.length → xg bars j = false) :
    ∀ (n i : ℕ) (s : SimState), s.shares = 0 →
      (runSteps bars n s i).2.1 = [] ∧ ∀ v ∈ (runSteps bars n s i).2.2, v = s.cash := by
  intro n
  induction n with
  | zero => intro i s _; simp [runSteps]
  | succ n ih =>
    intro i s hsh
    cases hb : bars[i]? with
    | none => simp [runSteps, hb]
    | some b =>
      have hi : i < bars.length := (List.getElem?_eq_some_iff.mp hb).1
      have hxg : xg bars i = false := hall i hi
      have hns : ¬(0 : ℚ) < s.shares := by rw [hsh]; exact lt_irrefl 0
      have hst : stepBar s b (ma7 bars i) (xg bars i) = (s, none, s.cash) := by
        rw [hxg]
        simp [stepBar, stepExit, stepEntry, hns, hsh]
      have hrest := ih (i + 1) s hsh
      simp only [runSteps, hb, hst]
      refine ⟨hrest.1, ?_⟩
      intro v hv
      rcases List.mem_cons.mp hv with h | h
      · exact h
      · exact hrest.2 v h

/-- C7.  Inert backtest: a series shorter than 30 bars (the longest
indicator window) has an all-false signal; and whenever the signal is false
at every bar, the trade log is empty and every point of the equity curve
equals the initial cash. -/
theorem inert_backtest_short_or_nosignal (bars : List Bar) (c : ℚ) :
    (bars.length < 30 → ∀ i, i < bars.length → xg bars i = false) ∧
    ((∀ i, i < bars.length → xg bars i = false) →
      (backtest bars c).2.1 = [] ∧ ∀ v ∈ (backtest bars c).2.2, v = c) := by
  constructor
  · intro h i _
    exact xg_false_of_cond2 (by simp [cond2, short_series_roll30_none bars i h])
  · intro hall
    exact inert_run bars hall bars.length 0 (initState c) rfl

/-- Witness for C7 at a concrete input: the two-bar series. -/
theorem inert_backtest_witness :
    wbars.length < 30 ∧ (∀ i, i < wbars.length → xg wbars i = false) ∧
    (backtest wbars 500).2.1 = [] ∧ ∀ v ∈ (backtest wbars 500).2.2, v = 500 :=
  ⟨by decide, by decide,
   (inert_backtest_short_or_nosignal wbars 500).2 (by decide)⟩

theorem stepBar_fst (s : SimState) (b : Bar) (m : Option ℚ) (xgv : Bool) :
    (stepBar s b m xgv).1 = stepEntry (stepExit s b m).1 b xgv := rfl

theorem stepExit_conserved (s : SimState) (b : Bar) (m : Option ℚ)
    (hb : 0 < b.close) (h : Conserved s) : Conserved (stepExit s b m).1 := by
  unfold stepExit
  by_cases hs : (0 : ℚ) < s.shares
  · by_cases hcond : b.close < s.stop_low ∨ ltOpt b.close m = true
    · simp only [if_pos hs, if_pos hcond]
      exact Or.inl ⟨rfl, mul_pos hs hb⟩
    · simp only [if_pos hs, if_neg hcond]
      exact h
  · simp only [if_neg hs]
    exact h

theorem stepEntry_conserved (s : SimState) (b : Bar) (xgv : Bool)
    (hb : 0 < b.close) (h : Conserved s) : Conserved (stepEntry s b xgv) := by
  unfold stepEntry
  by_cases hcond : xgv = true ∧ s.shares = 0
  · simp only [if_pos hcond]
    rcases h with ⟨_, hc⟩ | ⟨_, hsh⟩
    · exact Or.inr ⟨rfl, div_pos hc hb⟩
    · exact absurd hcond.2 (ne_of_gt hsh)
  · simp only [if_neg hcond]
    exact h

theorem conserved_step (s : SimState) (b : Bar) (m : Option ℚ) (xgv : Bool)
    (hb : 0 < b.close) (h : Conserved s) : Conserved (stepBar s b m xgv).1 := by
  rw [stepBar_fst]
  exact stepEntry_conserved _ _ _ hb (stepExit_conserved _ _ _ hb h)

/-- C1.  Conservation law: starting from positive initial cash, on a series
of positive closes, the loop state at every point of the run (in particular
at each point where an equity value is recorded, i.e. `stateAt (n+1)`) is
either Flat with `shares = 0 ∧ cash > 0` or Long with `cash = 0 ∧
shares > 0`; cash and shares are never simultaneously positive. -/
theorem cash_shares_conservation (bars : List Bar) (c : ℚ) (n : ℕ)
    (hc : 0 < c) (hpos : ∀ b ∈ bars, 0 < b.close) :
    Conserved (stateAt bars c n) ∧
    ¬(0 < (stateAt bars c n).cash ∧ 0 < (stateAt bars c n).shares) := by
  have h : Conserved (stateAt bars c n) := by
    induction n with
    | zero => exact Or.inl ⟨rfl, hc⟩
    | succ n ih =>
      unfold stateAt
      cases hb : bars[n]? with
      | none => exact ih
      | some b => exact conserved_step _ _ _ _ (hpos b (List.getElem?_mem hb)) ih
  refine ⟨h, ?_⟩
  rcases h with ⟨hsh, _⟩ | ⟨hcash, _⟩
  · rintro ⟨_, hpos2⟩
    rw [hsh] at hpos2
    exact lt_irrefl 0 hpos2
  · rintro ⟨hpos1, _⟩
    rw [hcash] at hpos1
    exact lt_irrefl 0 hpos1

/-- Witness for C1 at a concrete input: the full 31-bar series `tbars`,
checked at the recording point of its final bar (a Flat state after the
stop-out). -/
theorem cash_shares_conservation_witness :
    (0 : ℚ) < 100000 ∧ (∀ b ∈ tbars, 0 < b.close) ∧
    (Conserved (stateAt tbars 100000 31) ∧
      ¬(0 < (stateAt tbars 100000 31).cash ∧ 0 < (stateAt tbars 100000 31).shares)) :=
  ⟨by decide, by decide,
   cash_shares_conservation tbars 100000 31 (by decide) (by decide)⟩

theorem stepBar_equity (s : SimState) (b : Bar) (m : Option ℚ) (xgv : Bool) :
    (stepBar s b m xgv).2.2 =
      (stepBar s b m xgv).1.cash + (stepBar s b m xgv).1.shares * b.close := rfl

theorem stateAt_succ (bars : List Bar) (c : ℚ) {i : ℕ} {b : Bar}
    (hb : bars[i]? = some b) :
    stateAt bars c (i + 1) =
      (stepBar (stateAt bars c i) b (ma7 bars i) (xg bars i)).1 := by
  rw [stateAt, hb]

theorem runSteps_hist_length (bars : List Bar) :
    ∀ (n i : ℕ) (s : SimState), i + n ≤ bars.length →
      ((runSteps bars n s i).2.2).length = n := by
  intro n
  induction n with
  | zero => intro i s _; rfl
  | succ n ih =>
    intro i s h
    have hi : i < bars.length := by omega
    have hb : bars[i]? = some bars[i] := List.getElem?_eq_getElem hi
    simp only [runSteps, hb, List.length_cons]
    rw [ih (i + 1) _ (by omega)]

theorem runSteps_hist_get (bars : List Bar) (c : ℚ) :
    ∀ (n i k : ℕ), i + n ≤ bars.length → k < n →
      ((runSteps bars n (stateAt bars c i) i).2.2)[k]? =
        some ((stateAt bars c (i + k + 1)).cash +
              (stateAt bars c (i + k + 1)).shares * closeAt bars (i + k)) := by
  intro n
  induction n with
  | zero => intro i k _ hk; omega
  | succ n ih =>
    intro i k h hk
    have hi : i < bars.length := by omega
    have hb : bars[i]? = some bars[i] := List.getElem?_eq_getElem hi
    have hst : (stepBar (stateAt bars c i) bars[i] (ma7 bars i) (xg bars i)).1 =
        stateAt bars c (i + 1) := (stateAt_succ bars c hb).symm
    simp only [runSteps, hb]
    cases k with
    | zero =>
      simp only [List.getElem?_cons_zero, Nat.add_zero]
      rw [stepBar_equity, hst]
      have hclose : closeAt bars i = (bars[i]).close := by
        unfold closeAt
        rw [hb]
        rfl
      rw [hclose]
    | succ k =>
      simp only [List.getElem?_cons_succ]
      rw [hst]
      have := ih (i + 1) k (by omega) (by omega)
      have harith1 : i + 1 + k = i + (k + 1) := by omega
      rw [harith1] at this
      exact this

/-- C2.  Equity-curve invariant: the backtest produces exactly one equity
point per input bar, and the `n`-th point equals `cash + shares * close[n]`
evaluated in the loop state recorded after processing bar `n`. -/
theorem equity_curve_length_and_value (bars : List Bar) (c : ℚ) :
    ((backtest bars c).2.2).length = bars.length ∧
    ∀ n, ((backtest bars c).2.2)[n]? =
      (bars[n]?).map (fun b =>
        (stateAt bars c (n + 1)).cash + (stateAt bars c (n + 1)).shares * b.close) := by
  constructor
  · exact runSteps_hist_length bars bars.length 0 (initState c) (by omega)
  · intro n
    by_cases hn : n < bars.length
    · have hb : bars[n]? = some bars[n] := List.getElem?_eq_getElem hn
      have := runSteps_hist_get bars c bars.length 0 n (by omega) hn
      simp only [Nat.zero_add] at this
      have hclose : closeAt bars n = (bars[n]).close := by
        unfold closeAt
        rw [hb]
        rfl
      rw [hclose] at this
      unfold backtest
      rw [show initState c = stateAt bars c 0 from rfl]
      rw [this, hb]
      rfl
    · have h1 : ((backtest bars c).2.2).length ≤ n := by
        unfold backtest
        rw [runSteps_hist_length bars bars.length 0 (initState c) (by omega)]
        omega
      rw [List.getElem?_eq_none h1, List.getElem?_eq_none (by omega : bars.length ≤ n)]
      rfl

theorem stepBar_trade (s : SimState) (b : Bar) (m : Option ℚ) (xgv : Bool) :
    (stepBar s b m xgv).2.1 = (stepExit s b m).2 := rfl

theorem tradeAt_eq (bars : List Bar) (c : ℚ) {n : ℕ} {b : Bar}
    (hb : bars[n]? = some b) :
    tradeAt bars c n = (stepExit (stateAt bars c n) b (ma7 bars n)).2 := by
  simp only [tradeAt, hb]
  rfl

/-- C4.  Stop fixedness: processing bar `n` while Long and emitting no trade
record leaves the whole position state (including `stop_low`, the entry date
and the entry price) unchanged — the stop is never trailed; and whenever bar
`n` ends Long after having started Flat or after a liquidation, the position
was (re)opened on bar `n` itself, so its stop is bar `n`'s own low and its
entry date/price are bar `n`'s date/close. -/
theorem stop_price_fixedness (bars : List Bar) (c : ℚ) (n : ℕ) (b : Bar)
    (hb : bars[n]? = some b) :
    (0 < (stateAt bars c n).shares → tradeAt bars c n = none →
      stateAt bars c (n + 1) = stateAt bars c n) ∧
    (((stateAt bars c n).shares = 0 ∨ tradeAt bars c n ≠ none) →
      0 < (stateAt bars c (n + 1)).shares →
      (stateAt bars c (n + 1)).stop_low = b.low ∧
      (stateAt bars c (n + 1)).b_date = b.date ∧
      (stateAt bars c (n + 1)).b_price = b.close) := by
  have hs1 : stateAt bars c (n + 1) =
      stepEntry (stepExit (stateAt bars c n) b (ma7 bars n)).1 b (xg bars n) := by
    rw [stateAt_succ bars c hb, stepBar_fst]
  have htr : tradeAt bars c n = (stepExit (stateAt bars c n) b (ma7 bars n)).2 :=
    tradeAt_eq bars c hb
  set s := stateAt bars c n with hsdef
  constructor
  · intro hl htrn
    rw [htr] at htrn
    have hexit : (stepExit s b (ma7 bars n)) = (s, none) := by
      unfold stepExit at htrn ⊢
      rw [if_pos hl] at htrn ⊢
      by_cases hcond : b.close < s.stop_low ∨ ltOpt b.close (ma7 bars n) = true
      · rw [if_pos hcond] at htrn
        simp at htrn
      · rw [if_neg hcond]
    rw [hs1, hexit]
    unfold stepEntry
    rw [if_neg]
    rintro ⟨_, hsh0⟩
    exact ne_of_gt hl hsh0
  · intro hflat hl2
    by_cases hent : xg bars n = true ∧ (stepExit s b (ma7 bars n)).1.shares = 0
    · rw [hs1]
      unfold stepEntry
      rw [if_pos hent]
      exact ⟨rfl, rfl, rfl⟩
    · exfalso
      rw [hs1] at hl2
      unfold stepEntry at hl2
      rw [if_neg hent] at hl2
      rcases hflat with hsh0 | htrn
      · have hexit1 : (stepExit s b (ma7 bars n)).1 = s := by
          unfold stepExit
          rw [if_neg]
          rw [hsh0]
          exact lt_irrefl 0
        rw [hexit1] at hl2
        rw [hsh0] at hl2
        exact lt_irrefl 0 hl2
      · rw [htr] at htrn
        unfold stepExit at htrn hl2
        by_cases hs0 : 0 < s.shares
        · rw [if_pos hs0] at htrn hl2
          by_cases hcond : b.close < s.stop_low ∨ ltOpt b.close (ma7 bars n) = true
          · rw [if_pos hcond] at hl2
            exact lt_irrefl 0 hl2
          · rw [if_neg hcond] at htrn
            exact htrn rfl
        · rw [if_neg hs0] at htrn
          exact htrn rfl

/-- Witness for C4 at concrete inputs on `fbars`, where the position lives
for two bars.  Part (a) at bar 30: the state is Long, no trade is emitted,
and the whole position state — the stop included — survives the bar
unchanged even though the bar's own low (101) sits above the stop (100).
Part (b) at bar 29: the entry bar starts Flat and ends Long with the stop
equal to that bar's own low 100 and entry date/price 29/101. -/
theorem stop_price_fixedness_witness :
    (0 < (stateAt fbars 100000 30).shares ∧
     tradeAt fbars 100000 30 = none ∧
     stateAt fbars 100000 31 = stateAt fbars 100000 30) ∧
    ((stateAt fbars 100000 29).shares = 0 ∧
     0 < (stateAt fbars 100000 30).shares ∧
     (stateAt fbars 100000 30).stop_low = 100 ∧
     (stateAt fbars 100000 30).b_date = 29 ∧
     (stateAt fbars 100000 30).b_price = 101) :=
  ⟨⟨by decide, by decide,
    (stop_price_fixedness fbars 100000 30
      { date := 30, close := 102, high := 103, low := 101, pct_chg := 0, idx_c := 30 }
      (by decide)).1 (by decide) (by decide)⟩,
   by
    have h := (stop_price_fixedness fbars 100000 29
      { date := 29, close := 101, high := 102, low := 100, pct_chg := 0, idx_c := 29 }
      (by decide)).2 (Or.inl (by decide)) (by decide)
    exact ⟨by decide, by decide, h.1, h.2.1, h.2.2⟩⟩

theorem runSteps_logs_mem (bars : List Bar) (c : ℚ) :
    ∀ (n i : ℕ) (t : TradeR), i + n ≤ bars.length →
      t ∈ (runSteps bars n (stateAt bars c i) i).2.1 →
      ∃ k, k < n ∧ tradeAt bars c (i + k) = some t := by
  intro n
  induction n with
  | zero => intro i t _ ht; simp [runSteps] at ht
  | succ n ih =>
    intro i t h ht
    have hi : i < bars.length := by omega
    have hb : bars[i]? = some bars[i] := List.getElem?_eq_getElem hi
    have hst : (stepBar (stateAt bars c i) bars[i] (ma7 bars i) (xg bars i)).1 =
        stateAt bars c (i + 1) := (stateAt_succ bars c hb).symm
    have htr : (stepBar (stateAt bars c i) bars[i] (ma7 bars i) (xg bars i)).2.1 =
        tradeAt bars c i := by
      unfold tradeAt
      rw [hb]
    simp only [runSteps, hb] at ht
    rw [htr, hst] at ht
    rcases htrv : tradeAt bars c i with _ | t0
    · rw [htrv] at ht
      rcases ih (i + 1) t (by omega) ht with ⟨k, hk, hkt⟩
      exact ⟨k + 1, by omega, by rw [show i + (k + 1) = i + 1 + k by omega]; exact hkt⟩
    · rw [htrv] at ht
      rcases List.mem_cons.mp ht with heq | hmem
      · exact ⟨0, by omega, by rw [Nat.add_zero, htrv, heq]⟩
      · rcases ih (i + 1) t (by omega) hmem with ⟨k, hk, hkt⟩
        exact ⟨k + 1, by omega, by rw [show i + (k + 1) = i + 1 + k by omega]; exact hkt⟩

theorem entry_tracking (bars : List Bar) (c : ℚ) :
    ∀ n, 0 < (stateAt bars c n).shares →
      ∃ e be, e < n ∧ bars[e]? = some be ∧
        (stateAt bars c n).b_date = be.date ∧ (stateAt bars c n).b_price = be.close := by
  intro n
  induction n with
  | zero => intro h; exact absurd h (lt_irrefl 0)
  | succ n ih =>
    intro h
    cases hb : bars[n]? with
    | none =>
      have hstate : stateAt bars c (n + 1) = stateAt bars c n := by
        rw [stateAt, hb]
      rw [hstate] at h ⊢
      rcases ih h with ⟨e, be, he, h1, h2, h3⟩
      exact ⟨e, be, by omega, h1, h2, h3⟩
    | some b =>
      have hstate : stateAt bars c (n + 1) =
          stepEntry (stepExit (stateAt bars c n) b (ma7 bars n)).1 b (xg bars n) := by
        rw [stateAt_succ bars c hb, stepBar_fst]
      set s := stateAt bars c n with hsdef
      by_cases hent : xg bars n = true ∧ (stepExit s b (ma7 bars n)).1.shares = 0
      · refine ⟨n, b, by omega, hb, ?_, ?_⟩ <;>
          rw [hstate] <;>
          unfold stepEntry <;>
          rw [if_pos hent]
      · rw [hstate] at h
        unfold stepEntry at h
        rw [if_neg hent] at h
        by_cases hs0 : 0 < s.shares
        · by_cases hcond : b.close < s.stop_low ∨ ltOpt b.close (ma7 bars n) = true
          · exfalso
            unfold stepExit at h
            rw [if_pos hs0, if_pos hcond] at h
            exact lt_irrefl 0 h
          · have hexit : (stepExit s b (ma7 bars n)).1 = s := by
              unfold stepExit
              rw [if_pos hs0, if_neg hcond]
            rw [hstate, hexit]
            unfold stepEntry
            rw [if_neg (by rw [hexit] at hent; exact hent)]
            rcases ih hs0 with ⟨e, be, he, h1, h2, h3⟩
            exact ⟨e, be, by omega, h1, h2, h3⟩
        · exfalso
          have hexit : (stepExit s b (ma7 bars n)).1 = s := by
            unfold stepExit
            rw [if_neg hs0]
          rw [hexit] at h
          exact hs0 h

/-- C8.  Return computation: every record in the trade log carries the
return percentage `(sell - buy)/buy * 100` computed from its own recorded
prices, and those prices/dates are the close/date of an actual entry bar
and a later exit bar of the series. -/
theorem trade_return_formula (bars : List Bar) (c : ℚ) (t : TradeR)
    (ht : t ∈ (backtest bars c).2.1) :
    t.return_rate = (t.sell_price - t.buy_price) / t.buy_price * 100 ∧
    ∃ (e x : ℕ) (be bx : Bar), e < x ∧ bars[e]? = some be ∧ bars[x]? = some bx ∧
      t.buy_date = be.date ∧ t.buy_price = be.close ∧
      t.sell_date = bx.date ∧ t.sell_price = bx.close := by
  have ht2 : t ∈ (runSteps bars bars.length (stateAt bars c 0) 0).2.1 := ht
  rcases runSteps_logs_mem bars c bars.length 0 t (by omega) ht2 with ⟨k, hk, hkt⟩
  rw [Nat.zero_add] at hkt
  cases hb : bars[k]? with
  | none => rw [tradeAt, hb] at hkt; exact absurd hkt (by simp)
  | some b =>
    rw [tradeAt_eq bars c hb] at hkt
    set s := stateAt bars c k with hsdef
    unfold stepExit at hkt
    by_cases hs0 : 0 < s.shares
    · by_cases hcond : b.close < s.stop_low ∨ ltOpt b.close (ma7 bars k) = true
      · rw [if_pos hs0, if_pos hcond] at hkt
        have hteq : t = _ := (Option.some_inj.mp hkt).symm
        rcases entry_tracking bars c k hs0 with ⟨e, be, he, h1, h2, h3⟩
        refine ⟨?_, e, k, be, b, he, h1, hb, ?_, ?_, ?_, ?_⟩ <;> rw [hteq]
        · exact h2
        · exact h3
      · rw [if_pos hs0, if_neg hcond] at hkt
        exact absurd hkt (by simp)
    · rw [if_neg hs0] at hkt
      exact absurd hkt (by simp)

/-- Witness for C8 at a concrete input: the single trade of the 31-bar
series `tbars` (entry at close 101 on bar 29, stop-out at close 90 on
bar 30, return `(90-101)/101*100`). -/
theorem trade_return_formula_witness :
    ttrade ∈ (backtest tbars 100000).2.1 ∧
    ttrade.return_rate = (ttrade.sell_price - ttrade.buy_price) / ttrade.buy_price * 100 :=
  ⟨by decide,
   (trade_return_formula tbars 100000 ttrade (by decide)).1⟩

/-- C9, counterexample.  The claim says a series with non-monotonic or
duplicate dates is rejected as a precondition failure before the backtest
runs.  In the code the only pre-run validation (`inputChecksPass`, lines
142-145) never looks at the bar series: on the concrete two-bar series
`dupBars`, whose two dates are equal, the backtest runs to completion and
returns the ordinary full-length equity curve and empty trade log. -/
theorem duplicate_dates_run_anyway :
    strictDatesB dupBars = false ∧
    inputChecksPass 6 0 1 = true ∧
    (backtest dupBars 100).2.2 = [100, 100] ∧
    (backtest dupBars 100).2.1 = [] ∧
    ((backtest dupBars 100).2.2).length = dupBars.length := by
  refine ⟨by decide, by decide, by decide, by decide, by decide⟩

/-- C9, amended.  No date validation exists: even when the dates of the
series are not strictly increasing, the backtest silently runs over the
series in the given order and produces its full output — one equity point
per input bar — instead of reporting any precondition failure. -/
theorem no_date_validation_runs_silently (bars : List Bar) (c : ℚ)
    (_h : strictDatesB bars = false) :
    ((backtest bars c).2.2).length = bars.length := by
  unfold backtest
  exact runSteps_hist_length bars bars.length 0 (initState c) (by omega)

/-- Witness for the amended C9 at a concrete input: the duplicate-date
series. -/
theorem no_date_validation_witness :
    strictDatesB dupBars = false ∧ ((backtest dupBars 100).2.2).length = dupBars.length :=
  ⟨by decide, no_date_validation_runs_silently dupBars 100 (by decide)⟩

/-- C6, counterexample for the near-zero part.  Only an exactly-zero `a2`
is replaced by NaN (line 162); a merely near-zero denominator is divided
through, `q2` stays a finite number, and the signal can be true: at bar 29
of `nzbars` the denominator `a2` is positive but smaller than `10⁻⁹`, yet
`xg` is true. -/
theorem near_zero_a2_signal_true :
    0 < (a2at nzbars 29).getD 0 ∧
    (a2at nzbars 29).getD 0 < 1 / 1000000000 ∧
    xg nzbars 29 = true := by
  refine ⟨by decide, by decide, by decide⟩
